import Mathlib

/-!
# LSB steganography codec and browser surface: a verification development

The repository hides a framed message in the least significant bits of a
pixel buffer and recovers it later.  The shared codec (frame codec, bit
channel, engine) lives in Rust crates that are not among the available
sources, so those parts are modelled from the design document; the browser
glue `packages/wasm/lib/index.js` is present and is embedded directly.
-/

namespace Stego

/-- Modelled from the spec: the message type tag enumeration of the
`MessageFrame` data model (design §3).  The Rust codec crate that declares
it is not among the available sources. -/
inductive MessageType where
  | text
  | binary
deriving DecidableEq

/-- Modelled from the spec: a typed, length-prefixed message frame (design
§3).  The `length` field of the wire format always equals the payload size
(stated invariant `length == payload.size()`), so it is kept implicit as
`payload.length`.  Payload entries are carrier bytes, values `< 256`. -/
structure MessageFrame where
  type : MessageType
  payload : List Nat
deriving DecidableEq

/-- Modelled from the spec: the 1-byte type tag written by the frame codec
for each message kind. -/
def tagByte : MessageType → Nat
  | MessageType.text => 0
  | MessageType.binary => 1

/-- Modelled from the spec: recognising a type tag; tags other than the two
enumerated kinds are unrecognized. -/
def tagToType (n : Nat) : Option MessageType :=
  if n = 0 then some MessageType.text
  else if n = 1 then some MessageType.binary
  else none

/-- Modelled from the spec: the fixed width of the length field, four bytes
(design §6 wire format, "fixed width (e.g. 4 bytes)"). -/
def lengthFieldWidth : Nat := 4

/-- Modelled from the spec: fixed-endianness (big-endian) fixed-width
encoding of the payload length. -/
def u32be (n : Nat) : List Nat :=
  [n / 2 ^ 24 % 256, n / 2 ^ 16 % 256, n / 2 ^ 8 % 256, n % 256]

/-- Modelled from the spec: big-endian decoding of the length field bytes. -/
def beToNat (bs : List Nat) : Nat :=
  bs.foldl (fun acc b => acc * 256 + b) 0

/-- Modelled from the spec (design §4.1): `serialize` writes, in a fixed
order, the 1-byte type tag, the fixed-width big-endian length field, then
the raw payload bytes, with no further padding. -/
def serialize (f : MessageFrame) : List Nat :=
  (tagByte f.type :: u32be f.payload.length) ++ f.payload

/-- Modelled from the spec: the codec error kinds (design §7). -/
inductive StegoError where
  | insufficientCapacity (required available : Nat)
  | insufficientData
  | malformedFrame
deriving DecidableEq

/-- Modelled from the spec (design §4.1): `deserialize` reads the tag, then
the length field, then slices exactly `length` payload bytes from the
remainder; it fails with `MalformedFrame` when fewer bytes are available
than the header declares or when the type tag is unrecognized. -/
def deserialize (bs : List Nat) : Except StegoError MessageFrame :=
  match bs with
  | tag :: b3 :: b2 :: b1 :: b0 :: rest =>
    let len := beToNat [b3, b2, b1, b0]
    if rest.length < len then Except.error StegoError.malformedFrame
    else
      match tagToType tag with
      | none => Except.error StegoError.malformedFrame
      | some t => Except.ok ⟨t, rest.take len⟩
  | _ => Except.error StegoError.malformedFrame

/-- Modelled from the spec (design §4.2): capacity in bits equals the byte
length of the carrier buffer, one bit per channel byte. -/
def capacity (b : List Nat) : Nat := b.length

/-- Modelled from the spec: replace the least significant bit of a byte,
leaving every other bit of the byte untouched. -/
def setLsb (byte : Nat) (bit : Bool) : Nat :=
  2 * (byte / 2) + (if bit then 1 else 0)

/-- Modelled from the spec (design §4.2): `writeBit` sets the least
significant bit of `buffer[address]` to the given bit value. -/
def writeBit (b : List Nat) (addr : Nat) (bit : Bool) : List Nat :=
  b.set addr (setLsb (b.getD addr 0) bit)

/-- Modelled from the spec (design §4.2): `readBit` returns the least
significant bit of `buffer[address]`. -/
def readBit (b : List Nat) (addr : Nat) : Bool :=
  b.getD addr 0 % 2 == 1

/-- Modelled from the spec: most-significant-bit-first expansion of one
byte into its eight bits (design §4.3 numeric semantics). -/
def bitsOfByte (x : Nat) : List Bool :=
  [x.testBit 7, x.testBit 6, x.testBit 5, x.testBit 4,
   x.testBit 3, x.testBit 2, x.testBit 1, x.testBit 0]

/-- Modelled from the spec: the bit stream of a byte sequence, bytes in
frame order, msb-first within each byte. -/
def bitsOfBytes : List Nat → List Bool
  | [] => []
  | b :: bs => bitsOfByte b ++ bitsOfBytes bs

/-- Modelled from the spec: reassemble one byte from eight msb-first bits. -/
def byteOfBits (bs : List Bool) : Nat :=
  bs.foldl (fun acc b => 2 * acc + (if b then 1 else 0)) 0

/-- Modelled from the spec: regroup a bit stream into bytes, eight bits per
byte, dropping any incomplete trailing group. -/
def bytesOfBits : List Bool → List Nat
  | b7 :: b6 :: b5 :: b4 :: b3 :: b2 :: b1 :: b0 :: rest =>
    byteOfBits [b7, b6, b5, b4, b3, b2, b1, b0] :: bytesOfBits rest
  | _ => []

/-- Modelled from the spec (design §4.3 step 4): write the frame bits at
sequential addresses from `start` upward, one `writeBit` call per bit. -/
def embedBits (b : List Nat) (bits : List Bool) (start : Nat) : List Nat :=
  match bits with
  | [] => b
  | bit :: rest => embedBits (writeBit b start bit) rest (start + 1)

/-- Modelled from the spec (design §4.3 step 2): the bit count the framed
message requires, eight per serialized byte. -/
def requiredBits (m : MessageFrame) : Nat := (serialize m).length * 8

/-- Modelled from the spec (design §4.3): `embed` with the buffer state made
explicit.  The capacity check happens before any mutation; on failure the
buffer component is still the untouched input buffer. -/
def embedRun (b : List Nat) (m : MessageFrame) :
    Except StegoError Unit × List Nat :=
  if requiredBits m > capacity b then
    (Except.error (StegoError.insufficientCapacity (requiredBits m) (capacity b)), b)
  else
    (Except.ok (), embedBits b (bitsOfBytes (serialize m)) 0)

/-- Modelled from the spec (design §4.3): `embed` serializes the message,
checks capacity, writes the frame bits sequentially and returns the
modified buffer, or the typed error. -/
def embed (b : List Nat) (m : MessageFrame) : Except StegoError (List Nat) :=
  match embedRun b m with
  | (Except.ok _, out) => Except.ok out
  | (Except.error e, _) => Except.error e

/-- Modelled from the spec: the frame header size in bits,
`(1 + lengthFieldWidth) * 8`. -/
def headerBits : Nat := (1 + lengthFieldWidth) * 8

/-- Modelled from the spec: sequential bit reads starting at a bit address. -/
def readRange (b : List Nat) (start count : Nat) : List Bool :=
  (List.range count).map (fun i => readBit b (start + i))

/-- Modelled from the spec (design §4.3): `extract` reads the header bits,
learns the payload length, checks that the payload bits fit inside the
carrier, reads them, reassembles the frame bytes, and hands them to
`deserialize`.  Header or payload overruns fail with `InsufficientData`
before any bit past the capacity is read. -/
def extract (b : List Nat) : Except StegoError MessageFrame :=
  if capacity b < headerBits then Except.error StegoError.insufficientData
  else if headerBits + beToNat ((bytesOfBits (readRange b 0 headerBits)).drop 1) * 8
      > capacity b then
    Except.error StegoError.insufficientData
  else
    deserialize (bytesOfBits (readRange b 0 headerBits) ++
      bytesOfBits (readRange b headerBits
        (beToNat ((bytesOfBits (readRange b 0 headerBits)).drop 1) * 8)))

/-- Modelled from the spec: the trace of buffer addresses `extract` reads,
mirroring the guards of `extract` exactly: no header read happens when the
capacity is below the header size, and no payload read happens when the
declared payload would run past the capacity. -/
def extractReadAddrs (b : List Nat) : List Nat :=
  if capacity b < headerBits then []
  else if headerBits + beToNat ((bytesOfBits (readRange b 0 headerBits)).drop 1) * 8
      > capacity b then
    List.range headerBits
  else
    List.range headerBits ++
      (List.range (beToNat ((bytesOfBits (readRange b 0 headerBits)).drop 1) * 8)).map
        (fun i => headerBits + i)

end Stego

namespace Browser

/-- Outcome of the promise created by `window.__iload` in
`src/packages/wasm/lib/index.js`: it either resolves with a byte array or
rejects with the error event it received. -/
inductive PromiseOutcome where
  | resolved (bytes : List Nat)
  | rejected (event : Nat)
deriving DecidableEq

/-- The terminal event of the `Image` element created by `window.__iload`.
A `load` event leads to the canvas rendering of the image; its payload here
is the byte array produced by `toBlob(canvas, "image/webp", 1)` followed by
`blob.arrayBuffer()` (the blob encoding chain is assumed to succeed; its
`catch` handler is the same rejection path as an error event).  An `error`
event on the image carries the event object, abstracted as a number. -/
inductive ImageEvent where
  | load (webpBytes : List Nat)
  | failure (event : Nat)

/-- `onImageLoad` from `index.js`: calls `decode_image` on the bytes, logs
the result, and returns it.  The decoder itself is external input. -/
def onImageLoad (decodeImage : List Nat → String) (data : List Nat) : String :=
  decodeImage data

/-- Observable trace of one `window.__iload` call: the promise outcome, the
arguments of every `decode_image` invocation, and the texts logged. -/
structure IloadTrace where
  result : PromiseOutcome
  decodeCalls : List (List Nat)
  loggedTexts : List String

/-- `window.__iload` from `index.js`: on image `load` it draws the image on
a hidden canvas, re-encodes it as WebP, resolves the promise with those
bytes, and then calls `onImageLoad` on the same buffer, whose return value
is dropped (only logged); on an image `error` event it rejects with the
event and never reaches `onImageLoad`. -/
def iload (decodeImage : List Nat → String) (ev : ImageEvent) : IloadTrace :=
  match ev with
  | ImageEvent.load webpBytes =>
    { result := PromiseOutcome.resolved webpBytes
      decodeCalls := [webpBytes]
      loggedTexts := [onImageLoad decodeImage webpBytes] }
  | ImageEvent.failure e =>
    { result := PromiseOutcome.rejected e
      decodeCalls := []
      loggedTexts := [] }

end Browser

namespace Stego

/-! ## Basic facts about the bit channel primitives -/

theorem getD_set (l : List Nat) (i j v : Nat) :
    (l.set i v).getD j 0 = if i = j ∧ i < l.length then v else l.getD j 0 := by
  induction l generalizing i j with
  | nil => simp
  | cons a l ih =>
    cases i with
    | zero =>
      cases j with
      | zero => simp
      | succ j => simp [List.getD_cons_succ]
    | succ i =>
      cases j with
      | zero => simp
      | succ j =>
        have hs : (a :: l).set (i + 1) v = a :: l.set i v := rfl
        rw [hs, List.getD_cons_succ, List.getD_cons_succ, ih]
        by_cases hij : i = j
        · subst hij
          by_cases hil : i < l.length
          · rw [if_pos ⟨rfl, hil⟩, if_pos ⟨rfl, by simpa using Nat.succ_lt_succ hil⟩]
          · rw [if_neg (by omega), if_neg (by simp; omega)]
        · rw [if_neg (by omega), if_neg (by omega)]

theorem length_writeBit (b : List Nat) (addr : Nat) (bit : Bool) :
    (writeBit b addr bit).length = b.length := by
  simp [writeBit]

theorem setLsb_div2 (x : Nat) (bit : Bool) : setLsb x bit / 2 = x / 2 := by
  cases bit
  · show (2 * (x / 2) + 0) / 2 = x / 2
    omega
  · show (2 * (x / 2) + 1) / 2 = x / 2
    omega

theorem setLsb_mod2 (x : Nat) (bit : Bool) :
    setLsb x bit % 2 = if bit then 1 else 0 := by
  cases bit
  · show (2 * (x / 2) + 0) % 2 = 0
    omega
  · show (2 * (x / 2) + 1) % 2 = 1
    omega

theorem getD_writeBit_div2 (b : List Nat) (addr : Nat) (bit : Bool) (i : Nat) :
    (writeBit b addr bit).getD i 0 / 2 = b.getD i 0 / 2 := by
  rw [writeBit, getD_set]
  split
  · next h => rw [← h.1, setLsb_div2]
  · rfl

theorem getD_writeBit_ne (b : List Nat) (addr : Nat) (bit : Bool) (i : Nat)
    (h : i ≠ addr) : (writeBit b addr bit).getD i 0 = b.getD i 0 := by
  rw [writeBit, getD_set, if_neg]
  intro hc
  exact h hc.1.symm

/-! ## Sequential embedding -/

theorem length_embedBits (bits : List Bool) (b : List Nat) (s : Nat) :
    (embedBits b bits s).length = b.length := by
  induction bits generalizing b s with
  | nil => rfl
  | cons bit rest ih => rw [embedBits, ih, length_writeBit]

theorem getD_embedBits_lt (bits : List Bool) (b : List Nat) (s i : Nat)
    (h : i < s) : (embedBits b bits s).getD i 0 = b.getD i 0 := by
  induction bits generalizing b s with
  | nil => rfl
  | cons bit rest ih =>
    rw [embedBits, ih _ _ (Nat.lt_succ_of_lt h),
      getD_writeBit_ne _ _ _ _ (Nat.ne_of_lt h)]

theorem getD_embedBits_div2 (bits : List Bool) (b : List Nat) (s i : Nat) :
    (embedBits b bits s).getD i 0 / 2 = b.getD i 0 / 2 := by
  induction bits generalizing b s with
  | nil => rfl
  | cons bit rest ih =>
    rw [embedBits, ih, getD_writeBit_div2]

theorem getD_embedBits_mod2 (bits : List Bool) (b : List Nat) (s i : Nat)
    (hcap : s + bits.length ≤ b.length) (hi : i < bits.length) :
    (embedBits b bits s).getD (s + i) 0 % 2
      = if bits.getD i false then 1 else 0 := by
  induction bits generalizing b s i with
  | nil => exact absurd hi (by simp)
  | cons bit rest ih =>
    cases i with
    | zero =>
      have hlt : s < b.length := by
        simp only [List.length_cons] at hcap
        omega
      rw [embedBits]
      simp only [Nat.add_zero]
      rw [getD_embedBits_lt rest (writeBit b s bit) (s + 1) s (Nat.lt_succ_self s),
        writeBit, getD_set, if_pos ⟨rfl, hlt⟩, setLsb_mod2]
      rfl
    | succ j =>
      have he : s + (j + 1) = (s + 1) + j := by omega
      rw [embedBits, he,
        ih (writeBit b s bit) (s + 1) j
          (by rw [length_writeBit]; simp only [List.length_cons] at hcap; omega)
          (by simpa using hi)]
      rfl

theorem readBit_embedBits (bits : List Bool) (b : List Nat) (i : Nat)
    (hcap : bits.length ≤ b.length) (hi : i < bits.length) :
    readBit (embedBits b bits 0) i = bits.getD i false := by
  have h := getD_embedBits_mod2 bits b 0 i (by simpa using hcap) hi
  rw [Nat.zero_add] at h
  rw [readBit, h]
  cases bits.getD i false <;> rfl

theorem readRange_embedBits (bits : List Bool) (b : List Nat) (s c : Nat)
    (hb : bits.length ≤ b.length) (hc : s + c ≤ bits.length) :
    readRange (embedBits b bits 0) s c = (bits.drop s).take c := by
  apply List.ext_getElem
  · simp only [readRange, List.length_map, List.length_range, List.length_take,
      List.length_drop]
    omega
  · intro i h1 h2
    simp only [readRange, List.getElem_map, List.getElem_range]
    rw [readBit_embedBits bits b (s + i) hb
      (by simp only [readRange, List.length_map, List.length_range] at h1; omega),
      List.getElem_take, List.getElem_drop,
      List.getD_eq_getElem bits false (by
        simp only [readRange, List.length_map, List.length_range] at h1
        omega)]

end Stego

namespace Stego

/-! ## Bytes to bits and back -/

theorem length_bitsOfBytes (bs : List Nat) :
    (bitsOfBytes bs).length = 8 * bs.length := by
  induction bs with
  | nil => rfl
  | cons b bs ih =>
    rw [bitsOfBytes, List.length_append, ih]
    simp [bitsOfByte]
    omega

theorem bitsOfBytes_append (xs ys : List Nat) :
    bitsOfBytes (xs ++ ys) = bitsOfBytes xs ++ bitsOfBytes ys := by
  induction xs with
  | nil => rfl
  | cons x xs ih => simp [bitsOfBytes, ih]

set_option maxRecDepth 4000 in
theorem byteOfBits_bitsOfByte (x : Nat) (h : x < 256) :
    byteOfBits (bitsOfByte x) = x := by
  revert h
  revert x
  decide

theorem bytesOfBits_byte_cons (b : Nat) (rest : List Bool) :
    bytesOfBits (bitsOfByte b ++ rest)
      = byteOfBits (bitsOfByte b) :: bytesOfBits rest := rfl

theorem bytesOfBits_bitsOfBytes (bs : List Nat) (h : ∀ x ∈ bs, x < 256) :
    bytesOfBits (bitsOfBytes bs) = bs := by
  induction bs with
  | nil => rfl
  | cons b bs ih =>
    rw [bitsOfBytes, bytesOfBits_byte_cons, byteOfBits_bitsOfByte b (h b (by simp)),
      ih (fun x hx => h x (by simp [hx]))]

/-! ## The frame codec -/

theorem beToNat_u32be (n : Nat) (h : n < 2 ^ 32) : beToNat (u32be n) = n := by
  simp only [beToNat, u32be, List.foldl]
  omega

theorem length_serialize (f : MessageFrame) :
    (serialize f).length = 1 + lengthFieldWidth + f.payload.length := by
  simp [serialize, u32be, lengthFieldWidth]
  omega

theorem tagToType_tagByte (t : MessageType) : tagToType (tagByte t) = some t := by
  cases t <;> rfl

theorem deserialize_exact (t : MessageType) (b3 b2 b1 b0 : Nat) (p : List Nat)
    (hbe : beToNat [b3, b2, b1, b0] = p.length) :
    deserialize (tagByte t :: b3 :: b2 :: b1 :: b0 :: p) = Except.ok ⟨t, p⟩ := by
  rw [deserialize]
  simp only [hbe, Nat.lt_irrefl, if_false, tagToType_tagByte, List.take_length]

theorem deserialize_serialize (f : MessageFrame) (h : f.payload.length < 2 ^ 32) :
    deserialize (serialize f) = Except.ok f := by
  have hs : serialize f = tagByte f.type :: f.payload.length / 2 ^ 24 % 256 ::
      f.payload.length / 2 ^ 16 % 256 :: f.payload.length / 2 ^ 8 % 256 ::
      f.payload.length % 256 :: f.payload := rfl
  rw [hs, deserialize_exact f.type _ _ _ _ f.payload (beToNat_u32be _ h)]

end Stego

namespace Stego

/-! ## The steganographic engine -/

theorem serialize_bytes_lt (f : MessageFrame) (h : ∀ x ∈ f.payload, x < 256) :
    ∀ x ∈ serialize f, x < 256 := by
  intro x hx
  rw [serialize] at hx
  rcases List.mem_append.mp hx with hx | hx
  · rcases List.mem_cons.mp hx with rfl | hx
    · cases f.type <;> simp [tagByte]
    · rw [u32be] at hx
      simp only [List.mem_cons, List.not_mem_nil, or_false] at hx
      rcases hx with rfl | rfl | rfl | rfl <;> exact Nat.mod_lt _ (by omega)
  · exact h x hx

theorem embed_of_fits (b : List Nat) (m : MessageFrame)
    (hcap : requiredBits m ≤ capacity b) :
    embed b m = Except.ok (embedBits b (bitsOfBytes (serialize m)) 0) := by
  rw [embed, embedRun, if_neg (by omega)]

theorem embed_of_overflow (b : List Nat) (m : MessageFrame)
    (hcap : requiredBits m > capacity b) :
    embed b m
      = Except.error (StegoError.insufficientCapacity (requiredBits m) (capacity b)) := by
  rw [embed, embedRun, if_pos hcap]

theorem extract_embedBits_frame (b : List Nat) (m : MessageFrame)
    (hbytes : ∀ x ∈ m.payload, x < 256)
    (hlen : m.payload.length < 2 ^ 32)
    (hcap : requiredBits m ≤ capacity b) :
    extract (embedBits b (bitsOfBytes (serialize m)) 0) = Except.ok m := by
  have hsl : (serialize m).length = 5 + m.payload.length := by
    rw [length_serialize, lengthFieldWidth]
  have hreq : requiredBits m = (5 + m.payload.length) * 8 := by
    rw [requiredBits, hsl]
  have hbl : (bitsOfBytes (serialize m)).length = 8 * (5 + m.payload.length) := by
    rw [length_bitsOfBytes, hsl]
  have hcap' : 8 * (5 + m.payload.length) ≤ b.length := by
    rw [hreq] at hcap
    unfold capacity at hcap
    omega
  have houtlen : (embedBits b (bitsOfBytes (serialize m)) 0).length = b.length :=
    length_embedBits _ _ _
  have hsplit : serialize m = (tagByte m.type :: u32be m.payload.length) ++ m.payload :=
    rfl
  have hhead_len : (bitsOfBytes (tagByte m.type :: u32be m.payload.length)).length
      = headerBits := by
    rw [length_bitsOfBytes]
    rfl
  have hread0 : readRange (embedBits b (bitsOfBytes (serialize m)) 0) 0 headerBits
      = bitsOfBytes (tagByte m.type :: u32be m.payload.length) := by
    rw [readRange_embedBits _ _ _ _ (by omega) (by rw [hbl]; show 0 + 40 ≤ _; omega),
      List.drop_zero, hsplit, bitsOfBytes_append, ← hhead_len, List.take_left]
  have hheader : bytesOfBits
      (readRange (embedBits b (bitsOfBytes (serialize m)) 0) 0 headerBits)
      = tagByte m.type :: u32be m.payload.length := by
    rw [hread0]
    exact bytesOfBits_bitsOfBytes _ (by
      intro x hx
      exact serialize_bytes_lt m hbytes x (by rw [hsplit, List.mem_append]; left; exact hx))
  have hlendec : beToNat ((tagByte m.type :: u32be m.payload.length).drop 1)
      = m.payload.length := by
    show beToNat (u32be m.payload.length) = m.payload.length
    exact beToNat_u32be _ hlen
  have hreadp : readRange (embedBits b (bitsOfBytes (serialize m)) 0) headerBits
      (m.payload.length * 8) = bitsOfBytes m.payload := by
    rw [readRange_embedBits _ _ _ _ (by omega)
        (by rw [hbl]; show 40 + m.payload.length * 8 ≤ _; omega),
      hsplit, bitsOfBytes_append, ← hhead_len, List.drop_left]
    have : m.payload.length * 8 = (bitsOfBytes m.payload).length := by
      rw [length_bitsOfBytes]
      omega
    rw [this, List.take_length]
  rw [extract, if_neg (by unfold capacity; rw [houtlen]; show ¬ _ < 40; omega),
    hheader, hlendec,
    if_neg (by unfold capacity; rw [houtlen]; show ¬ 40 + _ > _; omega),
    hreadp, bytesOfBits_bitsOfBytes m.payload hbytes]
  show deserialize (serialize m) = Except.ok m
  exact deserialize_serialize m hlen

end Stego

namespace Stego

/-! ## Safety facts about extraction and failure paths -/

theorem extract_short_buffer (b : List Nat) (h : b.length < headerBits) :
    extract b = Except.error StegoError.insufficientData := by
  rw [extract, if_pos]
  exact h

theorem mem_extractReadAddrs_lt (b : List Nat) (a : Nat)
    (ha : a ∈ extractReadAddrs b) : a < b.length := by
  rw [extractReadAddrs] at ha
  by_cases h1 : capacity b < headerBits
  · rw [if_pos h1] at ha
    simp at ha
  · rw [if_neg h1] at ha
    unfold capacity at h1
    by_cases h2 : headerBits +
        beToNat ((bytesOfBits (readRange b 0 headerBits)).drop 1) * 8 > capacity b
    · rw [if_pos h2] at ha
      have := List.mem_range.mp ha
      omega
    · rw [if_neg h2] at ha
      unfold capacity at h2
      rcases List.mem_append.mp ha with h | h
      · have := List.mem_range.mp h
        omega
      · obtain ⟨i, hi, rfl⟩ := List.mem_map.mp h
        have := List.mem_range.mp hi
        omega

theorem embedRun_error_state (b : List Nat) (m : MessageFrame) (e : StegoError)
    (h : (embedRun b m).fst = Except.error e) : (embedRun b m).snd = b := by
  rw [embedRun] at h ⊢
  by_cases hc : requiredBits m > capacity b
  · rw [if_pos hc]
  · rw [if_neg hc] at h
    exact absurd h (by simp)

theorem embed_getD_div2 (b : List Nat) (m : MessageFrame) (out : List Nat)
    (h : embed b m = Except.ok out) (i : Nat) :
    out.getD i 0 / 2 = b.getD i 0 / 2 := by
  rw [embed, embedRun] at h
  by_cases hc : requiredBits m > capacity b
  · rw [if_pos hc] at h
    exact absurd h (by simp)
  · rw [if_neg hc] at h
    simp only [Except.ok.injEq] at h
    rw [← h]
    exact getD_embedBits_div2 _ _ _ _

theorem embed_length_eq (b : List Nat) (m : MessageFrame) (out : List Nat)
    (h : embed b m = Except.ok out) : out.length = b.length := by
  rw [embed, embedRun] at h
  by_cases hc : requiredBits m > capacity b
  · rw [if_pos hc] at h
    exact absurd h (by simp)
  · rw [if_neg hc] at h
    simp only [Except.ok.injEq] at h
    rw [← h, length_embedBits]

end Stego

namespace Stego

theorem deserialize_short_payload (t b3 b2 b1 b0 : Nat) (rest : List Nat)
    (h : rest.length < beToNat [b3, b2, b1, b0]) :
    deserialize (t :: b3 :: b2 :: b1 :: b0 :: rest)
      = Except.error StegoError.malformedFrame := by
  rw [deserialize]
  simp [h]

theorem deserialize_bad_tag (t b3 b2 b1 b0 : Nat) (rest : List Nat)
    (htag : tagToType t = none) (h : ¬ rest.length < beToNat [b3, b2, b1, b0]) :
    deserialize (t :: b3 :: b2 :: b1 :: b0 :: rest)
      = Except.error StegoError.malformedFrame := by
  rw [deserialize]
  simp [h, htag]

end Stego

namespace Stego

/-! ## The claims -/

/-- C1: for every carrier buffer `b` and every message frame `m` whose framed
bit length is at most the capacity of `b`, extracting from the result of
embedding `m` into `b` returns `m` exactly.  The frame invariants of the
data model (byte-valued payload entries, length representable in the
fixed-width length field) are the standing `MessageFrame` invariants. -/
theorem claim_C1_roundtrip (b : List Nat) (m : MessageFrame)
    (hbytes : ∀ x ∈ m.payload, x < 256)
    (hlen : m.payload.length < 2 ^ 32)
    (hcap : requiredBits m ≤ capacity b) :
    ∃ out, embed b m = Except.ok out ∧ extract out = Except.ok m :=
  ⟨_, embed_of_fits b m hcap, extract_embedBits_frame b m hbytes hlen hcap⟩

theorem claim_C1_roundtrip_witness :
    ∃ out, embed (List.replicate 56 0) (MessageFrame.mk MessageType.text [104, 105])
        = Except.ok out
      ∧ extract out = Except.ok (MessageFrame.mk MessageType.text [104, 105]) :=
  claim_C1_roundtrip (List.replicate 56 0) (MessageFrame.mk MessageType.text [104, 105])
    (by decide) (by decide) (by decide)

/-- C2: embedding a message whose framed form requires exactly `capacity b`
bits succeeds, embedding one with `requiredBits > capacity b` fails with
`InsufficientCapacity` reporting required versus available, and the capacity
of a buffer equals its byte length. -/
theorem claim_C2_capacity_boundary (b : List Nat) (m : MessageFrame) :
    capacity b = b.length
    ∧ (requiredBits m = capacity b → ∃ out, embed b m = Except.ok out)
    ∧ (requiredBits m > capacity b →
        embed b m = Except.error
          (StegoError.insufficientCapacity (requiredBits m) (capacity b))) :=
  ⟨rfl,
   fun h => ⟨_, embed_of_fits b m (Nat.le_of_eq h)⟩,
   fun h => embed_of_overflow b m h⟩

theorem claim_C2_capacity_boundary_witness :
    (∃ out, embed (List.replicate 40 0) (MessageFrame.mk MessageType.text [])
        = Except.ok out)
    ∧ embed [] (MessageFrame.mk MessageType.text [])
        = Except.error (StegoError.insufficientCapacity
            (requiredBits (MessageFrame.mk MessageType.text [])) (capacity [])) :=
  ⟨(claim_C2_capacity_boundary (List.replicate 40 0)
      (MessageFrame.mk MessageType.text [])).2.1 (by decide),
   (claim_C2_capacity_boundary [] (MessageFrame.mk MessageType.text [])).2.2
      (by decide)⟩

/-- C3: `writeBit` changes only the least significant bit of the byte at the
given address (the upper bits of every byte, i.e. every quotient by two, are
unchanged, and every other byte is untouched); consequently every successful
embed leaves the upper seven bits of every byte of the buffer unchanged. -/
theorem claim_C3_bit_isolation :
    (∀ (buf : List Nat) (addr : Nat) (bit : Bool),
        (writeBit buf addr bit).length = buf.length
        ∧ (∀ i, (writeBit buf addr bit).getD i 0 / 2 = buf.getD i 0 / 2)
        ∧ (∀ i, i ≠ addr → (writeBit buf addr bit).getD i 0 = buf.getD i 0))
    ∧ (∀ (b : List Nat) (m : MessageFrame) (out : List Nat),
        embed b m = Except.ok out → ∀ i, out.getD i 0 / 2 = b.getD i 0 / 2) :=
  ⟨fun buf addr bit =>
    ⟨length_writeBit buf addr bit,
     fun i => getD_writeBit_div2 buf addr bit i,
     fun i h => getD_writeBit_ne buf addr bit i h⟩,
   fun b m out h i => embed_getD_div2 b m out h i⟩

theorem claim_C3_bit_isolation_witness :
    (writeBit [6, 7] 0 true).getD 1 0 = [6, 7].getD 1 0
    ∧ (List.replicate 40 4).getD 3 0 / 2 = (List.replicate 40 5).getD 3 0 / 2 :=
  ⟨(claim_C3_bit_isolation.1 [6, 7] 0 true).2.2 1 (by decide),
   claim_C3_bit_isolation.2 (List.replicate 40 5) (MessageFrame.mk MessageType.text [])
     (List.replicate 40 4) (by rfl) 3⟩

/-- C4: embed is all-or-nothing.  When the run of `embed` fails, the buffer
state at the moment the error is raised is byte-for-byte the original input
buffer (the capacity check precedes every mutation), a failing `embed` never
also returns an output buffer, and a failing `extract` returns no frame. -/
theorem claim_C4_all_or_nothing (b : List Nat) (m : MessageFrame) :
    (∀ e, (embedRun b m).fst = Except.error e → (embedRun b m).snd = b)
    ∧ (∀ e out, embed b m = Except.error e → embed b m ≠ Except.ok out)
    ∧ (∀ e f, extract b = Except.error e → extract b ≠ Except.ok f) :=
  ⟨fun e h => embedRun_error_state b m e h,
   fun _ _ h hok => by rw [h] at hok; exact Except.noConfusion hok,
   fun _ _ h hok => by rw [h] at hok; exact Except.noConfusion hok⟩

theorem claim_C4_all_or_nothing_witness :
    (embedRun [] (MessageFrame.mk MessageType.text [])).snd = []
    ∧ embed [] (MessageFrame.mk MessageType.text []) ≠ Except.ok []
    ∧ extract [] ≠ Except.ok (MessageFrame.mk MessageType.text []) :=
  ⟨(claim_C4_all_or_nothing [] (MessageFrame.mk MessageType.text [])).1
      (StegoError.insufficientCapacity 40 0) (by rfl),
   (claim_C4_all_or_nothing [] (MessageFrame.mk MessageType.text [])).2.1
      (StegoError.insufficientCapacity 40 0) [] (by rfl),
   (claim_C4_all_or_nothing [] (MessageFrame.mk MessageType.text [])).2.2
      StegoError.insufficientData (MessageFrame.mk MessageType.text []) (by rfl)⟩

/-- C5: extracting from a buffer shorter than the minimum frame header size
(`1 + lengthFieldWidth` bytes) fails with `InsufficientData`, and every
buffer address `extract` reads is strictly below the buffer's byte length
(no out-of-range access, on any buffer). -/
theorem claim_C5_short_extract (b : List Nat) :
    (b.length < 1 + lengthFieldWidth →
      extract b = Except.error StegoError.insufficientData)
    ∧ (∀ a ∈ extractReadAddrs b, a < b.length) := by
  constructor
  · intro h
    apply extract_short_buffer
    rw [lengthFieldWidth] at h
    rw [headerBits, lengthFieldWidth]
    omega
  · intro a ha
    exact mem_extractReadAddrs_lt b a ha

theorem claim_C5_short_extract_witness :
    extract [0, 0, 0] = Except.error StegoError.insufficientData
    ∧ (7 : Nat) < (List.replicate 40 0).length :=
  ⟨(claim_C5_short_extract [0, 0, 0]).1 (by decide),
   (claim_C5_short_extract (List.replicate 40 0)).2 7 (by decide)⟩

/-- C6: `serialize` writes exactly the 1-byte type tag, the fixed-width
big-endian length field, and the raw payload, with no other padding
(its output length is exactly `1 + lengthFieldWidth + payload.length`);
`deserialize` reads the fields back in the same order slicing exactly
`length` payload bytes, and fails with `MalformedFrame` whenever fewer
bytes are available than the header declares or the type tag is
unrecognized. -/
theorem claim_C6_frame_codec :
    (∀ f : MessageFrame,
        serialize f = (tagByte f.type :: u32be f.payload.length) ++ f.payload
        ∧ (serialize f).length = 1 + lengthFieldWidth + f.payload.length)
    ∧ (∀ f : MessageFrame, f.payload.length < 2 ^ 32 →
        deserialize (serialize f) = Except.ok f)
    ∧ (∀ (t b3 b2 b1 b0 : Nat) (rest : List Nat),
        rest.length < beToNat [b3, b2, b1, b0] →
        deserialize (t :: b3 :: b2 :: b1 :: b0 :: rest)
          = Except.error StegoError.malformedFrame)
    ∧ (∀ (t b3 b2 b1 b0 : Nat) (rest : List Nat), tagToType t = none →
        ¬ rest.length < beToNat [b3, b2, b1, b0] →
        deserialize (t :: b3 :: b2 :: b1 :: b0 :: rest)
          = Except.error StegoError.malformedFrame) :=
  ⟨fun f => ⟨rfl, length_serialize f⟩,
   fun f h => deserialize_serialize f h,
   fun t b3 b2 b1 b0 rest h => deserialize_short_payload t b3 b2 b1 b0 rest h,
   fun t b3 b2 b1 b0 rest htag h => deserialize_bad_tag t b3 b2 b1 b0 rest htag h⟩

theorem claim_C6_frame_codec_witness :
    deserialize (serialize (MessageFrame.mk MessageType.binary [7]))
      = Except.ok (MessageFrame.mk MessageType.binary [7])
    ∧ deserialize [0, 0, 0, 0, 2, 1] = Except.error StegoError.malformedFrame
    ∧ deserialize [9, 0, 0, 0, 0] = Except.error StegoError.malformedFrame :=
  ⟨claim_C6_frame_codec.2.1 (MessageFrame.mk MessageType.binary [7]) (by decide),
   claim_C6_frame_codec.2.2.1 0 0 0 0 2 [1] (by decide),
   claim_C6_frame_codec.2.2.2 9 0 0 0 0 [] (by decide) (by decide)⟩

/-- C7: every successful embed returns an output byte sequence of exactly
the same length as the input pixel buffer. -/
theorem claim_C7_shape_preserved (b : List Nat) (m : MessageFrame)
    (out : List Nat) (h : embed b m = Except.ok out) : out.length = b.length :=
  embed_length_eq b m out h

theorem claim_C7_shape_preserved_witness :
    (List.replicate 40 4).length = (List.replicate 40 5).length :=
  claim_C7_shape_preserved (List.replicate 40 5) (MessageFrame.mk MessageType.text [])
    (List.replicate 40 4) (by rfl)

/-- C8: `embed` and `extract` are deterministic pure functions of their
inputs: equal inputs give equal results, including equal typed failures;
there is no other state a call could depend on. -/
theorem claim_C8_deterministic (b b2 : List Nat) (m m2 : MessageFrame)
    (hb : b = b2) (hm : m = m2) :
    embed b m = embed b2 m2 ∧ extract b = extract b2 := by
  subst hb
  subst hm
  exact ⟨rfl, rfl⟩

theorem claim_C8_deterministic_witness :
    embed [1] (MessageFrame.mk MessageType.text [])
      = embed [1] (MessageFrame.mk MessageType.text [])
    ∧ extract [1] = extract [1] :=
  claim_C8_deterministic [1] [1] (MessageFrame.mk MessageType.text [])
    (MessageFrame.mk MessageType.text []) rfl rfl

end Stego

/-- C9: for every input text, on a successful image load `window.__iload`
resolves its promise with the WebP bytes produced by
`toBlob(canvas, "image/webp", 1)` on the canvas rendering of the fetched
image, not with the extracted message: the resolved value does not depend on
`decode_image` at all, whose result is only logged by `onImageLoad`. -/
theorem claim_C9_iload_resolves_webp
    (decodeImage decodeImage2 : List Nat → String) (webpBytes : List Nat) :
    (Browser.iload decodeImage (Browser.ImageEvent.load webpBytes)).result
      = Browser.PromiseOutcome.resolved webpBytes
    ∧ (Browser.iload decodeImage (Browser.ImageEvent.load webpBytes)).loggedTexts
      = [Browser.onImageLoad decodeImage webpBytes]
    ∧ (Browser.iload decodeImage (Browser.ImageEvent.load webpBytes)).result
      = (Browser.iload decodeImage2 (Browser.ImageEvent.load webpBytes)).result :=
  ⟨rfl, rfl, rfl⟩

/-- C10: if loading the challenge image fires an error event,
`window.__iload` rejects its promise with that event and `decode_image` is
never invoked during that call. -/
theorem claim_C10_iload_error_rejects (decodeImage : List Nat → String) (e : Nat) :
    (Browser.iload decodeImage (Browser.ImageEvent.failure e)).result
      = Browser.PromiseOutcome.rejected e
    ∧ (Browser.iload decodeImage (Browser.ImageEvent.failure e)).decodeCalls = [] :=
  ⟨rfl, rfl⟩
